import Mathlib

/-!
Shallow embedding of `pulsar-client-cpp/lib/Authentication.cc` (the pluggable
authentication loading subsystem of the Pulsar C++ client) and proofs about it.

Modelling conventions:
* `AuthenticationPtr` (a nullable `shared_ptr<Authentication>`) becomes
  `Option Authentication`; a null pointer is `none`.
* The dynamic loader (`dlopen` / `dlsym`) and the plugin code behind it are an
  abstract environment `PluginEnv`: `dlopen` maps a path to an optional module
  handle, and each `dlsym` lookup of an entrypoint yields an optional function
  (the plugin constructor, which may itself return a null strategy, i.e. `none`).
* The mutable statics of `AuthFactory` (`loadedLibrariesHandles_`,
  `isShutdownHookRegistered_`) together with the number of `atexit`
  registrations performed form an explicit `FactoryState` threaded through the
  operations; the mutex only serializes access and has no effect on the
  sequential semantics embedded here.
* `boost::algorithm::split` on a single-character separator (used for both the
  `,` and the `:` splits) is embedded as `splitOnChar` / `splitStr`.
* `ParamMap` (`std::map<std::string, std::string>`) is embedded as an
  association list with unique keys; `m[k] = v` becomes `mapInsert`, which
  overwrites the binding if the key is present and appends otherwise.  The spec
  treats the map as unordered, so only the entry set matters.
-/

namespace pulsar

/-- Embedding of `boost::algorithm::split(out, input, boost::is_any_of(c))` for
a one-character separator set, at the character-list level: the empty input
yields one empty token, and adjacent/leading/trailing separators yield empty
tokens (boost's `token_compress_off` default). -/
def splitOnChar (c : Char) : List Char → List (List Char)
  | [] => [[]]
  | x :: xs =>
    if x = c then [] :: splitOnChar c xs
    else
      match splitOnChar c xs with
      | [] => [[x]]
      | y :: ys => (x :: y) :: ys

/-- Joining with the separator character; inverse of `splitOnChar`. -/
def joinChar (c : Char) : List (List Char) → List Char
  | [] => []
  | [x] => x
  | x :: y :: r => x ++ c :: joinChar c (y :: r)

/-- String-level `boost::algorithm::split` on a one-character separator. -/
def splitStr (c : Char) (s : String) : List String :=
  (splitOnChar c s.data).map String.mk

/-- `ParamMap` from `pulsar/Authentication.h`: a string-to-string map with
unique keys, embedded as an association list. -/
abbrev ParamMap := List (String × String)

/-- Embedding of `paramMap[k] = v` on `std::map`: overwrite the binding of `k`
if present, otherwise add a new entry. -/
def mapInsert : ParamMap → String → String → ParamMap
  | [], k, v => [(k, v)]
  | (k', v') :: rest, k, v =>
    if k' = k then (k, v) :: rest else (k', v') :: mapInsert rest k v

/-- Lookup of a key in a `ParamMap`. -/
def mapLookup : ParamMap → String → Option String
  | [], _ => none
  | (k', v') :: rest, k => if k' = k then some v' else mapLookup rest k

/-- The body of the parsing loop of
`AuthFactory::create(const std::string&, const std::string&)` (lines 154-160):
split one comma-delimited segment on `:`; if that yields exactly two parts the
pair enters the map, otherwise the segment is dropped. -/
def parseSegStep (m : ParamMap) (seg : String) : ParamMap :=
  match splitStr ':' seg with
  | [k, v] => mapInsert m k v
  | _ => m

/-- The parameter-string parsing of
`AuthFactory::create(const std::string&, const std::string&)` (lines 150-161):
an empty input is not split at all; otherwise the input is split on `,` and
each segment is processed by `parseSegStep` left to right. -/
def parseParams (s : String) : ParamMap :=
  if s = "" then []
  else (splitStr ',' s).foldl parseSegStep []

/-- The record of answers an `AuthenticationDataProvider` object gives; the
C++ base class (lines 45-75) supplies one fixed implementation, embedded as the
value `AuthenticationDataProvider.base`. -/
structure AuthenticationDataProvider where
  hasDataForTls : Bool
  getTlsCertificates : String
  getTlsPrivateKey : String
  hasDataForHttp : Bool
  getHttpAuthType : String
  getHttpHeaders : String
  hasDataFromCommand : Bool
  getCommandData : String
deriving DecidableEq, Repr

/-- The base-class behaviour of `AuthenticationDataProvider` (lines 45-75):
every availability predicate is `false` and every accessor returns "none". -/
def AuthenticationDataProvider.base : AuthenticationDataProvider :=
  { hasDataForTls := false
    getTlsCertificates := "none"
    getTlsPrivateKey := "none"
    hasDataForHttp := false
    getHttpAuthType := "none"
    getHttpHeaders := "none"
    hasDataFromCommand := false
    getCommandData := "none" }

/-- `AuthDisabledData` (lines 84-88) adds nothing to the base class: its
constructor ignores the parameters and it overrides no method. -/
def AuthDisabledData (_params : ParamMap) : AuthenticationDataProvider :=
  AuthenticationDataProvider.base

/-- An `Authentication` object: a method name together with the
`AuthenticationDataProvider` it owns. -/
structure Authentication where
  getAuthMethodName : String
  authData : AuthenticationDataProvider
deriving DecidableEq, Repr

/-- `AuthDisabled::create` (lines 96-99): builds an `AuthDisabledData` from the
parameters and wraps it in an `AuthDisabled`, whose method name is "none"
(lines 101-103).  The construction never yields a null pointer. -/
def AuthDisabled.create (params : ParamMap) : Authentication :=
  { getAuthMethodName := "none", authData := AuthDisabledData params }

/-- Opaque module handle returned by `dlopen` (a non-null `void*`). -/
abbrev Handle := Nat

/-- Abstract environment standing for the dynamic loader and the plugins it can
reach: `dlopen` resolves a path to an optional handle (null on failure), and
the two `dlsym` lookups resolve the optional entrypoints `create` and
`createFromMap`, each a constructor that may itself return a null strategy. -/
structure PluginEnv where
  dlopen : String → Option Handle
  dlsymCreate : Handle → Option (String → Option Authentication)
  dlsymCreateFromMap : Handle → Option (ParamMap → Option Authentication)

/-- The mutable static state of `AuthFactory` (lines 117-119) plus a count of
how many times `atexit(release_handles)` has been executed. -/
structure FactoryState where
  loadedLibrariesHandles : List Handle
  isShutdownHookRegistered : Bool
  atexitCount : Nat
deriving DecidableEq, Repr

/-- The state at program start: empty handle vector, flag `false`, no `atexit`
registration performed. -/
def initialFactoryState : FactoryState :=
  { loadedLibrariesHandles := [], isShutdownHookRegistered := false, atexitCount := 0 }

/-- The shutdown-hook registration block at the top of both `create` overloads
(lines 131-137 and 169-175): if the flag is unset, call
`atexit(release_handles)` and set it. -/
def ensureShutdownHook (st : FactoryState) : FactoryState :=
  if st.isShutdownHookRegistered then st
  else { st with isShutdownHookRegistered := true, atexitCount := st.atexitCount + 1 }

/-- `loadedLibrariesHandles_.push_back(handle)` (lines 143 and 180). -/
def registerHandle (st : FactoryState) (h : Handle) : FactoryState :=
  { st with loadedLibrariesHandles := st.loadedLibrariesHandles ++ [h] }

/-- `AuthFactory::release_handles` (lines 121-128): `dlclose` every handle in
the vector in order, then clear the vector.  The second component of the result
is the ordered list of handles passed to `dlclose`. -/
def AuthFactory.release_handles (st : FactoryState) : FactoryState × List Handle :=
  ({ st with loadedLibrariesHandles := [] }, st.loadedLibrariesHandles)

/-- `AuthFactory::Disabled` (lines 107-110): build an `AuthDisabled` from an
empty parameter map; the resulting pointer is never null. -/
def AuthFactory.Disabled : Option Authentication :=
  some (AuthDisabled.create [])

/-- `AuthFactory::create(const std::string&, ParamMap&)` (lines 168-188): ensure
the shutdown hook, `dlopen` the path (null handle: return a null strategy),
record the handle, resolve `createFromMap` (absent: return a null strategy),
otherwise return whatever the plugin constructor produces. -/
def AuthFactory.createMap (env : PluginEnv) (st : FactoryState) (dynamicLibPath : String)
    (params : ParamMap) : FactoryState × Option Authentication :=
  let st1 := ensureShutdownHook st
  match env.dlopen dynamicLibPath with
  | none => (st1, none)
  | some h =>
    let st2 := registerHandle st1 h
    match env.dlsymCreateFromMap h with
    | some f => (st2, f params)
    | none => (st2, none)

/-- `AuthFactory::create(const std::string&, const std::string&)`
(lines 130-166): ensure the shutdown hook, `dlopen` the path (null handle:
return a null strategy), record the handle, resolve `create`; if present invoke
it on the raw parameter string, otherwise parse the string into a `ParamMap`
and delegate to the map overload (which loads the module again). -/
def AuthFactory.create (env : PluginEnv) (st : FactoryState) (dynamicLibPath : String)
    (authParamsString : String) : FactoryState × Option Authentication :=
  let st1 := ensureShutdownHook st
  match env.dlopen dynamicLibPath with
  | none => (st1, none)
  | some h =>
    let st2 := registerHandle st1 h
    match env.dlsymCreate h with
    | some f => (st2, f authParamsString)
    | none => AuthFactory.createMap env st2 dynamicLibPath (parseParams authParamsString)

/-- `AuthFactory::create(const std::string&)` (lines 112-115): delegate to the
map overload with an empty map. -/
def AuthFactory.createPath (env : PluginEnv) (st : FactoryState)
    (dynamicLibPath : String) : FactoryState × Option Authentication :=
  AuthFactory.createMap env st dynamicLibPath []

/-- One call to either `AuthFactory::create` overload, for reasoning about call
sequences. -/
inductive FactoryCall where
  | str (path s : String)
  | map (path : String) (params : ParamMap)

/-- The state after performing one factory call. -/
def runCall (env : PluginEnv) (st : FactoryState) : FactoryCall → FactoryState
  | .str p s => (AuthFactory.create env st p s).1
  | .map p m => (AuthFactory.createMap env st p m).1

/-- The state after performing a sequence of factory calls. -/
def runCalls (env : PluginEnv) (st : FactoryState) (cs : List FactoryCall) : FactoryState :=
  cs.foldl (runCall env) st

/-! Concrete fixtures used by witnesses: a plugin-produced strategy and three
loader environments (both entrypoints, only `createFromMap`, no entrypoint),
each exposing the module `"libA"` under handle `7`. -/

/-- A strategy as a plugin might build it. -/
def strategyA : Authentication :=
  { getAuthMethodName := "token", authData := AuthenticationDataProvider.base }

/-- The constructor behind the `create` symbol of the fixture plugin. -/
def fixtureCreate (s : String) : Option Authentication :=
  if s = "" then none else some strategyA

/-- Environment whose module `"libA"` exports both entrypoints. -/
def envBoth : PluginEnv :=
  { dlopen := fun p => if p = "libA" then some 7 else none
    dlsymCreate := fun _ => some fixtureCreate
    dlsymCreateFromMap := fun _ => some (fun _ => some strategyA) }

/-- Environment whose module `"libA"` exports only `createFromMap`. -/
def envMapOnly : PluginEnv :=
  { dlopen := fun p => if p = "libA" then some 7 else none
    dlsymCreate := fun _ => none
    dlsymCreateFromMap := fun _ => some (fun _ => some strategyA) }

/-- Environment whose module `"libA"` exports neither entrypoint. -/
def envBare : PluginEnv :=
  { dlopen := fun p => if p = "libA" then some 7 else none
    dlsymCreate := fun _ => none
    dlsymCreateFromMap := fun _ => none }

/-- A factory state in which the shutdown hook is already registered. -/
def stReg : FactoryState :=
  { loadedLibrariesHandles := [3], isShutdownHookRegistered := true, atexitCount := 1 }

/-! Helper lemmas about the factory state transformers. -/

@[simp] theorem ensureShutdownHook_flag (st : FactoryState) :
    (ensureShutdownHook st).isShutdownHookRegistered = true := by
  unfold ensureShutdownHook
  split
  · assumption
  · rfl

@[simp] theorem ensureShutdownHook_handles (st : FactoryState) :
    (ensureShutdownHook st).loadedLibrariesHandles = st.loadedLibrariesHandles := by
  unfold ensureShutdownHook
  split <;> rfl

theorem ensureShutdownHook_of_true {st : FactoryState}
    (h : st.isShutdownHookRegistered = true) : ensureShutdownHook st = st := by
  unfold ensureShutdownHook
  simp [h]

theorem ensureShutdownHook_count (st : FactoryState) :
    (ensureShutdownHook st).atexitCount =
      if st.isShutdownHookRegistered then st.atexitCount else st.atexitCount + 1 := by
  unfold ensureShutdownHook
  split <;> simp_all

@[simp] theorem registerHandle_flag (st : FactoryState) (h : Handle) :
    (registerHandle st h).isShutdownHookRegistered = st.isShutdownHookRegistered := rfl

@[simp] theorem registerHandle_count (st : FactoryState) (h : Handle) :
    (registerHandle st h).atexitCount = st.atexitCount := rfl

@[simp] theorem registerHandle_handles (st : FactoryState) (h : Handle) :
    (registerHandle st h).loadedLibrariesHandles = st.loadedLibrariesHandles ++ [h] := rfl

/-- The state component of the map-path overload, independent of the `dlsym`
outcome. -/
theorem createMap_fst (env : PluginEnv) (st : FactoryState) (p : String) (m : ParamMap) :
    (AuthFactory.createMap env st p m).1 =
      match env.dlopen p with
      | none => ensureShutdownHook st
      | some h => registerHandle (ensureShutdownHook st) h := by
  cases hdl : env.dlopen p with
  | none => simp [AuthFactory.createMap, hdl]
  | some h =>
    cases hsym : env.dlsymCreateFromMap h with
    | none => simp [AuthFactory.createMap, hdl, hsym]
    | some f => simp [AuthFactory.createMap, hdl, hsym]

theorem createMap_fst_flag (env : PluginEnv) (st : FactoryState) (p : String) (m : ParamMap) :
    (AuthFactory.createMap env st p m).1.isShutdownHookRegistered = true := by
  rw [createMap_fst]
  cases env.dlopen p <;> simp

theorem createMap_fst_count (env : PluginEnv) (st : FactoryState) (p : String) (m : ParamMap) :
    (AuthFactory.createMap env st p m).1.atexitCount = (ensureShutdownHook st).atexitCount := by
  rw [createMap_fst]
  cases env.dlopen p <;> simp

theorem ensureShutdownHook_count_of_true {st : FactoryState}
    (h : st.isShutdownHookRegistered = true) :
    (ensureShutdownHook st).atexitCount = st.atexitCount := by
  rw [ensureShutdownHook_of_true h]

theorem create_fst_flag (env : PluginEnv) (st : FactoryState) (p s : String) :
    (AuthFactory.create env st p s).1.isShutdownHookRegistered = true := by
  cases hdl : env.dlopen p with
  | none => simp [AuthFactory.create, hdl]
  | some h =>
    cases hsym : env.dlsymCreate h with
    | none => simp [AuthFactory.create, hdl, hsym, createMap_fst_flag]
    | some f => simp [AuthFactory.create, hdl, hsym]

theorem create_fst_count (env : PluginEnv) (st : FactoryState) (p s : String) :
    (AuthFactory.create env st p s).1.atexitCount = (ensureShutdownHook st).atexitCount := by
  cases hdl : env.dlopen p with
  | none => simp [AuthFactory.create, hdl]
  | some h =>
    cases hsym : env.dlsymCreate h with
    | none =>
      have hstep : AuthFactory.create env st p s =
          AuthFactory.createMap env (registerHandle (ensureShutdownHook st) h) p
            (parseParams s) := by
        simp [AuthFactory.create, hdl, hsym]
      rw [hstep, createMap_fst_count, ensureShutdownHook_count_of_true (by simp)]
      simp
    | some f => simp [AuthFactory.create, hdl, hsym]

theorem runCall_flag (env : PluginEnv) (st : FactoryState) (c : FactoryCall) :
    (runCall env st c).isShutdownHookRegistered = true := by
  cases c with
  | str p s => exact create_fst_flag env st p s
  | map p m => exact createMap_fst_flag env st p m

theorem runCall_count (env : PluginEnv) (st : FactoryState) (c : FactoryCall) :
    (runCall env st c).atexitCount = (ensureShutdownHook st).atexitCount := by
  cases c with
  | str p s => exact create_fst_count env st p s
  | map p m => exact createMap_fst_count env st p m

theorem runCalls_of_true (env : PluginEnv) (cs : List FactoryCall) :
    ∀ st : FactoryState, st.isShutdownHookRegistered = true →
      (runCalls env st cs).isShutdownHookRegistered = true
      ∧ (runCalls env st cs).atexitCount = st.atexitCount := by
  induction cs with
  | nil => exact fun st h => ⟨h, rfl⟩
  | cons c rest ih =>
    intro st h
    have h1 := runCall_flag env st c
    have h2 := runCall_count env st c
    rw [ensureShutdownHook_of_true h] at h2
    have := ih (runCall env st c) h1
    exact ⟨this.1, by rw [runCalls] at this ⊢; simpa [List.foldl, h2] using this.2⟩

/-! Derived descriptions of the parsing loop, used to state the parsing
claims. -/

/-- The pair one comma-delimited segment contributes: `some (k, v)` exactly
when splitting the segment on `:` yields the two parts `k` and `v`. -/
def parseSegment (seg : String) : Option (String × String) :=
  match splitStr ':' seg with
  | [k, v] => some (k, v)
  | _ => none

/-- The two-part key/value pairs of a parameter string, in segment order. -/
def wellFormedPairs (s : String) : List (String × String) :=
  (splitStr ',' s).filterMap parseSegment

/-- The segments of `s` that split on `:` into exactly two parts (the segments
the code accepts). -/
def twoPartSegments (s : String) : List String :=
  (splitStr ',' s).filter (fun seg => decide ((splitStr ':' seg).length = 2))

/-- The spec's notion of a well-formed segment, for comparison with the code:
splitting on `:` yields exactly two non-empty parts. -/
def specWellFormedSegments (s : String) : List String :=
  (splitStr ',' s).filter (fun seg =>
    match splitStr ':' seg with
    | [k, v] => !(k == "") && !(v == "")
    | _ => false)

/-- Re-serialization of a `ParamMap`: the `key:value` strings of its entries,
in order (joining them with `,` yields the serialized form). -/
def serializedEntries (m : ParamMap) : List String :=
  m.map (fun p => p.1 ++ ":" ++ p.2)

/-- The values of the accepted segments of `s` whose key is `k`, in
left-to-right segment order. -/
def acceptedValuesFor (s k : String) : List String :=
  (splitStr ',' s).filterMap (fun seg =>
    match splitStr ':' seg with
    | [k', v] => if k' = k then some v else none
    | _ => none)

/-! Lemmas about `mapInsert` and `mapLookup`. -/

theorem mem_mapInsert {m : ParamMap} {k v : String} {x : String × String}
    (hx : x ∈ mapInsert m k v) : x ∈ m ∨ x = (k, v) := by
  induction m with
  | nil => simpa [mapInsert] using hx
  | cons p rest ih =>
    obtain ⟨k', v'⟩ := p
    by_cases h : k' = k
    · simp only [mapInsert, if_pos h] at hx
      rcases List.mem_cons.1 hx with h1 | h2
      · exact Or.inr h1
      · exact Or.inl (List.mem_cons_of_mem _ h2)
    · simp only [mapInsert, if_neg h] at hx
      rcases List.mem_cons.1 hx with h1 | h2
      · exact Or.inl (List.mem_cons.2 (Or.inl h1))
      · rcases ih h2 with h3 | h4
        · exact Or.inl (List.mem_cons_of_mem _ h3)
        · exact Or.inr h4

theorem mapLookup_mapInsert_self (m : ParamMap) (k v : String) :
    mapLookup (mapInsert m k v) k = some v := by
  induction m with
  | nil => simp [mapInsert, mapLookup]
  | cons p rest ih =>
    obtain ⟨k', v'⟩ := p
    by_cases h : k' = k
    · simp [mapInsert, if_pos h, mapLookup]
    · simp [mapInsert, if_neg h, mapLookup, h, ih]

theorem mapLookup_mapInsert_ne {k' k : String} (m : ParamMap) (v : String)
    (h : ¬k' = k) : mapLookup (mapInsert m k' v) k = mapLookup m k := by
  have h' : ¬k = k' := fun he => h he.symm
  induction m with
  | nil => simp [mapInsert, mapLookup, h]
  | cons p rest ih =>
    obtain ⟨k'', v''⟩ := p
    by_cases h2 : k'' = k'
    · subst h2
      simp [mapInsert, mapLookup, h]
    · by_cases h3 : k'' = k
      · subst h3
        simp [mapInsert, mapLookup, h', h2]
      · simp [mapInsert, if_neg h2, mapLookup, h3, ih]

theorem mem_keys_mapInsert {m : ParamMap} {k v a : String} :
    a ∈ (mapInsert m k v).map Prod.fst ↔ a ∈ m.map Prod.fst ∨ a = k := by
  induction m with
  | nil => simp [mapInsert]
  | cons p rest ih =>
    obtain ⟨k', v'⟩ := p
    by_cases h : k' = k
    · subst h
      simp [mapInsert]
      tauto
    · simp [mapInsert, if_neg h, ih]
      tauto

theorem nodup_keys_mapInsert {m : ParamMap} (k v : String)
    (hnd : (m.map Prod.fst).Nodup) : ((mapInsert m k v).map Prod.fst).Nodup := by
  induction m with
  | nil => simp [mapInsert]
  | cons p rest ih =>
    obtain ⟨k', v'⟩ := p
    simp only [List.map_cons, List.nodup_cons] at hnd
    by_cases h : k' = k
    · subst h
      have he : mapInsert ((k', v') :: rest) k' v = (k', v) :: rest := by
        simp [mapInsert]
      rw [he]
      simp only [List.map_cons, List.nodup_cons]
      exact hnd
    · have he : mapInsert ((k', v') :: rest) k v = (k', v') :: mapInsert rest k v := by
        simp [mapInsert, h]
      rw [he]
      simp only [List.map_cons, List.nodup_cons]
      refine ⟨?_, ih hnd.2⟩
      intro hmem
      rcases mem_keys_mapInsert.1 hmem with h1 | h2
      · exact hnd.1 h1
      · exact h h2

theorem mapInsert_of_not_mem {m : ParamMap} {k : String}
    (h : k ∉ m.map Prod.fst) (v : String) : mapInsert m k v = m ++ [(k, v)] := by
  induction m with
  | nil => rfl
  | cons p rest ih =>
    obtain ⟨k', v'⟩ := p
    simp only [List.map_cons, List.mem_cons] at h
    push_neg at h
    have hne : ¬k' = k := fun he => h.1 he.symm
    simp [mapInsert, if_neg hne, ih h.2]

theorem countP_key_eq_one {m : ParamMap} {k v : String}
    (hnd : (m.map Prod.fst).Nodup) (hlk : mapLookup m k = some v) :
    m.countP (fun p => decide (p.1 = k)) = 1 := by
  induction m with
  | nil => simp [mapLookup] at hlk
  | cons p rest ih =>
    obtain ⟨k', v'⟩ := p
    simp only [List.map_cons, List.nodup_cons] at hnd
    by_cases h : k' = k
    · subst h
      rw [List.countP_cons]
      have hz : rest.countP (fun p => decide (p.1 = k')) = 0 := by
        rw [List.countP_eq_zero]
        intro p hp
        simp only [decide_eq_true_eq]
        intro hk
        exact hnd.1 (hk ▸ List.mem_map_of_mem Prod.fst hp)
      simp [hz]
    · rw [List.countP_cons]
      simp only [mapLookup, if_neg h] at hlk
      simp [h, ih hnd.2 hlk]

/-! Lemmas connecting `parseParams` to its segment-level description. -/

theorem parseSegment_eq_some {seg k v : String} :
    parseSegment seg = some (k, v) ↔ splitStr ':' seg = [k, v] := by
  unfold parseSegment
  rcases h : splitStr ':' seg with _ | ⟨a, _ | ⟨b, _ | _⟩⟩ <;> simp

theorem parseSegStep_eq (m : ParamMap) (seg : String) :
    parseSegStep m seg =
      match parseSegment seg with
      | some kv => mapInsert m kv.1 kv.2
      | none => m := by
  unfold parseSegStep parseSegment
  rcases h : splitStr ':' seg with _ | ⟨a, _ | ⟨b, _ | _⟩⟩ <;> simp

theorem parseParams_eq_foldl (s : String) :
    parseParams s = (splitStr ',' s).foldl parseSegStep [] := by
  by_cases h : s = ""
  · subst h
    decide
  · unfold parseParams
    simp [h]

theorem foldl_parseSegStep_eq (segs : List String) (m : ParamMap) :
    segs.foldl parseSegStep m =
      (segs.filterMap parseSegment).foldl (fun acc kv => mapInsert acc kv.1 kv.2) m := by
  induction segs generalizing m with
  | nil => rfl
  | cons seg rest ih =>
    rw [List.foldl_cons, parseSegStep_eq]
    cases h : parseSegment seg with
    | none => rw [List.filterMap_cons, h]; exact ih m
    | some kv => rw [List.filterMap_cons, h, List.foldl_cons]; exact ih _

theorem mem_foldl_mapInsert {x : String × String} :
    ∀ (ps : List (String × String)) (m : ParamMap),
      x ∈ ps.foldl (fun acc kv => mapInsert acc kv.1 kv.2) m → x ∈ m ∨ x ∈ ps := by
  intro ps
  induction ps with
  | nil => exact fun m hx => Or.inl hx
  | cons kv rest ih =>
    intro m hx
    obtain ⟨k, v⟩ := kv
    rw [List.foldl_cons] at hx
    rcases ih _ hx with hm | hr
    · rcases mem_mapInsert hm with h1 | h2
      · exact Or.inl h1
      · exact Or.inr (List.mem_cons.2 (Or.inl h2))
    · exact Or.inr (List.mem_cons_of_mem _ hr)

theorem nodup_keys_foldl_mapInsert :
    ∀ (ps : List (String × String)) (m : ParamMap),
      (m.map Prod.fst).Nodup →
      ((ps.foldl (fun acc kv => mapInsert acc kv.1 kv.2) m).map Prod.fst).Nodup := by
  intro ps
  induction ps with
  | nil => exact fun m h => h
  | cons kv rest ih =>
    intro m hm
    rw [List.foldl_cons]
    exact ih _ (nodup_keys_mapInsert kv.1 kv.2 hm)

theorem nodup_keys_parseParams (s : String) :
    ((parseParams s).map Prod.fst).Nodup := by
  rw [parseParams_eq_foldl, foldl_parseSegStep_eq]
  exact nodup_keys_foldl_mapInsert _ [] (by simp)

theorem foldl_mapInsert_of_nodup :
    ∀ (ps : List (String × String)) (m : ParamMap),
      (ps.map Prod.fst).Nodup →
      (∀ x ∈ ps.map Prod.fst, x ∉ m.map Prod.fst) →
      ps.foldl (fun acc kv => mapInsert acc kv.1 kv.2) m = m ++ ps := by
  intro ps
  induction ps with
  | nil => intro m _ _; simp
  | cons kv rest ih =>
    intro m hnd hdisj
    obtain ⟨k, v⟩ := kv
    simp only [List.map_cons, List.nodup_cons] at hnd
    rw [List.foldl_cons]
    have hk : k ∉ m.map Prod.fst := hdisj k (by simp)
    rw [mapInsert_of_not_mem hk v, ih (m ++ [(k, v)]) hnd.2 ?_]
    · simp
    · intro x hx
      rw [List.map_append, List.mem_append]
      push_neg
      refine ⟨hdisj x (by simp [hx]), ?_⟩
      simp only [List.map_cons, List.map_nil, List.mem_singleton]
      intro he
      exact hnd.1 (he ▸ hx)

theorem parseParams_eq_wellFormedPairs {s : String}
    (hnd : ((wellFormedPairs s).map Prod.fst).Nodup) :
    parseParams s = wellFormedPairs s := by
  rw [parseParams_eq_foldl, foldl_parseSegStep_eq]
  have := foldl_mapInsert_of_nodup (wellFormedPairs s) [] hnd (by simp)
  simpa [wellFormedPairs] using this

/-! Splitting and rejoining: a segment that splits into `[k, v]` really is the
string `k ++ ":" ++ v`. -/

theorem splitOnChar_ne_nil (c : Char) (l : List Char) : splitOnChar c l ≠ [] := by
  cases l with
  | nil => simp [splitOnChar]
  | cons x xs =>
    unfold splitOnChar
    by_cases h : x = c
    · simp [h]
    · simp only [h, if_false]
      cases hs : splitOnChar c xs <;> simp

theorem joinChar_single (c : Char) (x : List Char) : joinChar c [x] = x := rfl

theorem joinChar_cons₂ (c : Char) (x y : List Char) (r : List (List Char)) :
    joinChar c (x :: y :: r) = x ++ c :: joinChar c (y :: r) := rfl

theorem joinChar_splitOnChar (c : Char) (l : List Char) :
    joinChar c (splitOnChar c l) = l := by
  induction l with
  | nil => rfl
  | cons x xs ih =>
    unfold splitOnChar
    by_cases h : x = c
    · subst h
      rw [if_pos rfl]
      cases hs : splitOnChar x xs with
      | nil => exact absurd hs (splitOnChar_ne_nil x xs)
      | cons y ys =>
        rw [hs] at ih
        rw [joinChar_cons₂]
        simpa using ih
    · simp only [h, if_false]
      cases hs : splitOnChar c xs with
      | nil => exact absurd hs (splitOnChar_ne_nil c xs)
      | cons y ys =>
        rw [hs] at ih
        cases ys with
        | nil =>
          rw [joinChar_single] at ih ⊢
          rw [ih]
        | cons z zs =>
          rw [joinChar_cons₂] at ih ⊢
          rw [List.cons_append, ih]

theorem splitStr_two_parts {c : Char} {s k v : String}
    (h : splitStr c s = [k, v]) : s.data = k.data ++ c :: v.data := by
  unfold splitStr at h
  cases hs : splitOnChar c s.data with
  | nil => exact absurd hs (splitOnChar_ne_nil c s.data)
  | cons a t =>
    rw [hs] at h
    cases t with
    | nil => simp at h
    | cons b t2 =>
      cases t2 with
      | cons d t3 => simp at h
      | nil =>
        simp only [List.map_cons, List.map_nil, List.cons.injEq, and_true] at h
        obtain ⟨hk, hv⟩ := h
        have hj := joinChar_splitOnChar c s.data
        rw [hs, joinChar_cons₂, joinChar_single] at hj
        rw [← hj, ← hk, ← hv]

theorem segment_reconstruction {s k v : String}
    (h : splitStr ':' s = [k, v]) : s = k ++ ":" ++ v := by
  apply String.ext
  rw [String.data_append, String.data_append]
  have hd := splitStr_two_parts h
  simpa using hd

theorem serialized_wellFormedPairs (segs : List String) :
    (segs.filterMap parseSegment).map (fun p => p.1 ++ ":" ++ p.2) =
      segs.filter (fun seg => decide ((splitStr ':' seg).length = 2)) := by
  induction segs with
  | nil => rfl
  | cons seg rest ih =>
    rw [List.filterMap_cons, List.filter_cons]
    cases h : parseSegment seg with
    | none =>
      have hlen : ¬(splitStr ':' seg).length = 2 := by
        intro hl
        rcases hsp : splitStr ':' seg with _ | ⟨a, _ | ⟨b, _ | _⟩⟩ <;>
          rw [hsp] at hl <;> simp at hl
        exact absurd (parseSegment_eq_some.2 hsp) (by simp [h])
      simp [hlen, ih]
    | some kv =>
      obtain ⟨k, v⟩ := kv
      have hsp : splitStr ':' seg = [k, v] := parseSegment_eq_some.1 h
      have hseg : seg = k ++ ":" ++ v := segment_reconstruction hsp
      have hcond : decide ((splitStr ':' seg).length = 2) = true := by rw [hsp]; rfl
      rw [if_pos hcond, List.map_cons, ih, ← hseg]

/-! The last-write-wins description of the fold, for duplicate keys. -/

theorem mapLookup_foldl_mapInsert (k : String) :
    ∀ (ps : List (String × String)) (m : ParamMap),
      mapLookup (ps.foldl (fun acc kv => mapInsert acc kv.1 kv.2) m) k =
        match (ps.filterMap (fun kv => if kv.1 = k then some kv.2 else none)).getLast? with
        | some v => some v
        | none => mapLookup m k := by
  intro ps
  induction ps with
  | nil => intro m; rfl
  | cons kv rest ih =>
    intro m
    obtain ⟨k', v⟩ := kv
    rw [List.foldl_cons, ih]
    by_cases hk : k' = k
    · subst hk
      have hfm : List.filterMap (fun kv => if kv.1 = k' then some kv.2 else none)
          ((k', v) :: rest) =
          v :: List.filterMap (fun kv => if kv.1 = k' then some kv.2 else none) rest := by
        simp [List.filterMap_cons]
      rw [hfm]
      cases hl : List.filterMap (fun kv => if kv.1 = k' then some kv.2 else none) rest with
      | nil => simp [mapLookup_mapInsert_self]
      | cons w ws =>
        rw [List.getLast?_cons_cons]
        cases hg : (w :: ws).getLast? with
        | none =>
          rw [List.getLast?_eq_none_iff] at hg
          exact absurd hg (by simp)
        | some z => simp
    · have hfm : List.filterMap (fun kv => if kv.1 = k then some kv.2 else none)
          ((k', v) :: rest) =
          List.filterMap (fun kv => if kv.1 = k then some kv.2 else none) rest := by
        simp [List.filterMap_cons, hk]
      rw [hfm]
      cases hl : List.filterMap (fun kv => if kv.1 = k then some kv.2 else none) rest with
      | nil => simp [mapLookup_mapInsert_ne m v hk]
      | cons w ws =>
        cases hg : (w :: ws).getLast? with
        | none =>
          rw [List.getLast?_eq_none_iff] at hg
          exact absurd hg (by simp)
        | some z => simp

theorem acceptedValuesFor_eq (s k : String) :
    acceptedValuesFor s k =
      (wellFormedPairs s).filterMap (fun kv => if kv.1 = k then some kv.2 else none) := by
  unfold acceptedValuesFor wellFormedPairs
  rw [List.filterMap_filterMap]
  apply List.filterMap_congr
  intro seg _
  unfold parseSegment
  rcases hsp : splitStr ':' seg with _ | ⟨a, _ | ⟨b, _ | _⟩⟩ <;> simp

/-! Claim theorems about the factory, the disabled strategy and the handle
registry. -/

/-- C2: parsing `"region:us-east,token:abc123"` yields exactly the map
`{"region" ↦ "us-east", "token" ↦ "abc123"}`, and parsing
`"bad,entry:1:2,ok:yes"` yields exactly `{"ok" ↦ "yes"}`: the colon-free
segment `"bad"` and the two-colon segment `"entry:1:2"` are both dropped. -/
theorem parse_examples :
    parseParams "region:us-east,token:abc123" = [("region", "us-east"), ("token", "abc123")]
  ∧ parseParams "bad,entry:1:2,ok:yes" = [("ok", "yes")] := by
  constructor <;> decide

/-- C3: `AuthFactory::Disabled` always returns a non-null strategy whose
method name is `"none"` and whose data provider reports no data on all three
channels and returns the sentinel `"none"` from every accessor. -/
theorem disabled_strategy_spec :
    ∃ a : Authentication, AuthFactory.Disabled = some a
      ∧ a.getAuthMethodName = "none"
      ∧ a.authData.hasDataForTls = false
      ∧ a.authData.hasDataForHttp = false
      ∧ a.authData.hasDataFromCommand = false
      ∧ a.authData.getTlsCertificates = "none"
      ∧ a.authData.getTlsPrivateKey = "none"
      ∧ a.authData.getHttpAuthType = "none"
      ∧ a.authData.getHttpHeaders = "none"
      ∧ a.authData.getCommandData = "none" :=
  ⟨AuthDisabled.create [], rfl, rfl, rfl, rfl, rfl, rfl, rfl, rfl, rfl, rfl⟩

/-- C4: on both `create` overloads, a strategy is returned exactly when the
module loads, the required entrypoint resolves (with the string→map fallback on
the string path) and the plugin constructor returns a non-null pointer; every
failure, of any of these kinds, collapses to a null (`none`) result, and the
functions are total, so no error signal other than absence exists. -/
theorem create_failure_collapses_to_none (env : PluginEnv) (st : FactoryState)
    (path s : String) (params : ParamMap) (a : Authentication) :
    ((AuthFactory.createMap env st path params).2 = some a ↔
      ∃ h g, env.dlopen path = some h ∧ env.dlsymCreateFromMap h = some g ∧
        g params = some a)
  ∧ ((AuthFactory.create env st path s).2 = some a ↔
      ∃ h, env.dlopen path = some h ∧
        ((∃ f, env.dlsymCreate h = some f ∧ f s = some a) ∨
         (env.dlsymCreate h = none ∧ ∃ g, env.dlsymCreateFromMap h = some g ∧
            g (parseParams s) = some a))) := by
  constructor
  · cases hdl : env.dlopen path with
    | none => simp [AuthFactory.createMap, hdl]
    | some h =>
      cases hsym : env.dlsymCreateFromMap h with
      | none => simp [AuthFactory.createMap, hdl, hsym]
      | some g => simp [AuthFactory.createMap, hdl, hsym]
  · cases hdl : env.dlopen path with
    | none => simp [AuthFactory.create, hdl]
    | some h =>
      cases hsym : env.dlsymCreate h with
      | none =>
        cases hsym2 : env.dlsymCreateFromMap h with
        | none => simp [AuthFactory.create, AuthFactory.createMap, hdl, hsym, hsym2]
        | some g => simp [AuthFactory.create, AuthFactory.createMap, hdl, hsym, hsym2]
      | some f => simp [AuthFactory.create, hdl, hsym]

/-- C5: on the string path, once the module has loaded under handle `h`, a
present `create` symbol is invoked on the raw unparsed string and its result is
returned with the handle recorded once; an absent `create` symbol makes the
call parse the string and delegate to the map overload, which loads the same
module a second time, so the handle collection grows by two for the single
call. -/
theorem create_string_path_resolution (env : PluginEnv) (st : FactoryState)
    (path s : String) (h : Handle) (hdl : env.dlopen path = some h) :
    (∀ f, env.dlsymCreate h = some f →
      AuthFactory.create env st path s = (registerHandle (ensureShutdownHook st) h, f s))
  ∧ (env.dlsymCreate h = none →
      AuthFactory.create env st path s =
        AuthFactory.createMap env (registerHandle (ensureShutdownHook st) h) path
          (parseParams s)
      ∧ (AuthFactory.create env st path s).1.loadedLibrariesHandles =
          st.loadedLibrariesHandles ++ [h, h]) := by
  constructor
  · intro f hsym
    simp [AuthFactory.create, hdl, hsym]
  · intro hsym
    have hstep : AuthFactory.create env st path s =
        AuthFactory.createMap env (registerHandle (ensureShutdownHook st) h) path
          (parseParams s) := by
      simp [AuthFactory.create, hdl, hsym]
    refine ⟨hstep, ?_⟩
    rw [hstep, createMap_fst, hdl]
    simp

/-- Witness for C5 at concrete inputs: `envBoth` exercises the symbol-present
branch, `envMapOnly` the fallback branch with its double load. -/
theorem create_string_path_resolution_w :
    (AuthFactory.create envBoth initialFactoryState "libA" "k:v" =
      (registerHandle (ensureShutdownHook initialFactoryState) 7, fixtureCreate "k:v"))
  ∧ (AuthFactory.create envMapOnly initialFactoryState "libA" "k:v" =
      AuthFactory.createMap envMapOnly
        (registerHandle (ensureShutdownHook initialFactoryState) 7) "libA"
        (parseParams "k:v")
      ∧ (AuthFactory.create envMapOnly initialFactoryState "libA" "k:v").1.loadedLibrariesHandles =
          initialFactoryState.loadedLibrariesHandles ++ [7, 7]) :=
  ⟨(create_string_path_resolution envBoth initialFactoryState "libA" "k:v" 7 rfl).1
      fixtureCreate rfl,
   (create_string_path_resolution envMapOnly initialFactoryState "libA" "k:v" 7 rfl).2 rfl⟩

/-- C6: across any sequence of `create` calls starting at process start, the
shutdown-hook flag is set exactly when at least one call has happened, the
`atexit` registration runs exactly once over any non-empty sequence, and every
call performed in a state whose flag is already set leaves the flag and the
registration count unchanged. -/
theorem shutdown_hook_registered_once (env : PluginEnv) (cs : List FactoryCall) :
    ((runCalls env initialFactoryState cs).atexitCount = if cs.isEmpty then 0 else 1)
  ∧ ((runCalls env initialFactoryState cs).isShutdownHookRegistered = !cs.isEmpty)
  ∧ (∀ st : FactoryState, st.isShutdownHookRegistered = true →
      (runCalls env st cs).isShutdownHookRegistered = true
      ∧ (runCalls env st cs).atexitCount = st.atexitCount) := by
  refine ⟨?_, ?_, runCalls_of_true env cs⟩
  · cases cs with
    | nil => rfl
    | cons c rest =>
      have h1 := runCall_flag env initialFactoryState c
      have h2 := runCall_count env initialFactoryState c
      rw [ensureShutdownHook_count initialFactoryState] at h2
      have h3 := runCalls_of_true env rest (runCall env initialFactoryState c) h1
      simpa [runCalls, List.foldl, h2] using h3.2
  · cases cs with
    | nil => rfl
    | cons c rest =>
      have h1 := runCall_flag env initialFactoryState c
      have h3 := runCalls_of_true env rest (runCall env initialFactoryState c) h1
      simpa [runCalls, List.foldl] using h3.1

/-- Witness for C6: one concrete call from the initial state registers the hook
once, and a call from an already-registered state changes nothing. -/
theorem shutdown_hook_registered_once_w :
    ((runCalls envBare initialFactoryState [FactoryCall.map "libA" []]).atexitCount = 1)
  ∧ (runCalls envBare stReg [FactoryCall.map "libA" []]).atexitCount = stReg.atexitCount := by
  refine ⟨?_, ((shutdown_hook_registered_once envBare [FactoryCall.map "libA" []]).2.2
    stReg rfl).2⟩
  have h := (shutdown_hook_registered_once envBare [FactoryCall.map "libA" []]).1
  simpa using h

/-- C7: `release_handles` emits one `dlclose` per registered handle, in
insertion order, then empties the collection while touching nothing else; a
second call after that unloads nothing and is a no-op (which also covers the
empty-collection case). -/
theorem release_handles_spec (st : FactoryState) :
    (AuthFactory.release_handles st).2 = st.loadedLibrariesHandles
  ∧ (AuthFactory.release_handles st).1.loadedLibrariesHandles = []
  ∧ (AuthFactory.release_handles st).1.isShutdownHookRegistered = st.isShutdownHookRegistered
  ∧ (AuthFactory.release_handles st).1.atexitCount = st.atexitCount
  ∧ AuthFactory.release_handles (AuthFactory.release_handles st).1 =
      ((AuthFactory.release_handles st).1, []) :=
  ⟨rfl, rfl, rfl, rfl, rfl⟩

/-- C10: on the map path, a successful load whose call then fails (absent
`createFromMap` symbol, or a plugin constructor returning null) still leaves
the handle appended to the collection: the result is `none` but the registry
has grown by one. -/
theorem map_path_registers_handle_on_failure (env : PluginEnv) (st : FactoryState)
    (path : String) (params : ParamMap) (h : Handle)
    (hdl : env.dlopen path = some h)
    (hfail : env.dlsymCreateFromMap h = none ∨
      ∃ g, env.dlsymCreateFromMap h = some g ∧ g params = none) :
    (AuthFactory.createMap env st path params).2 = none
  ∧ (AuthFactory.createMap env st path params).1.loadedLibrariesHandles =
      st.loadedLibrariesHandles ++ [h] := by
  have hfst : (AuthFactory.createMap env st path params).1.loadedLibrariesHandles =
      st.loadedLibrariesHandles ++ [h] := by
    rw [createMap_fst, hdl]
    simp
  refine ⟨?_, hfst⟩
  rcases hfail with hnone | ⟨g, hg, hgp⟩
  · simp [AuthFactory.createMap, hdl, hnone]
  · simp [AuthFactory.createMap, hdl, hg, hgp]

/-- Witness for C10: under `envBare` the module `"libA"` loads as handle `7`
but exports no `createFromMap`; the call fails yet the handle is recorded. -/
theorem map_path_registers_handle_on_failure_w :
    (AuthFactory.createMap envBare initialFactoryState "libA" []).2 = none
  ∧ (AuthFactory.createMap envBare initialFactoryState "libA" []).1.loadedLibrariesHandles =
      initialFactoryState.loadedLibrariesHandles ++ [7] :=
  map_path_registers_handle_on_failure envBare initialFactoryState "libA" [] 7 rfl
    (Or.inl rfl)

/-- C1 counterexample: the claim requires both parts of an accepted segment to
be non-empty, but the code checks only that the split yields two parts: the
segment `"a:"`, whose value part is empty, is accepted and binds `"a"` to `""`
instead of being dropped. -/
theorem parse_segment_acceptance_cex :
    parseParams "a:" = [("a", "")] ∧ ¬parseParams "a:" = [] := by
  constructor <;> decide

/-- C1 (amended): a comma-delimited segment is accepted into the ParamMap
exactly when splitting it on `:` yields two parts, empty parts included; every
segment splitting into any other number of parts (zero colons, or two or more
colons) is silently dropped and contributes nothing to the map. -/
theorem parse_segment_acceptance :
    (∀ s k v, (k, v) ∈ parseParams s →
      ∃ seg ∈ splitStr ',' s, splitStr ':' seg = [k, v])
  ∧ (∀ m seg k v, splitStr ':' seg = [k, v] → parseSegStep m seg = mapInsert m k v)
  ∧ (∀ m seg, ¬(splitStr ':' seg).length = 2 → parseSegStep m seg = m) := by
  refine ⟨?_, ?_, ?_⟩
  · intro s k v hkv
    rw [parseParams_eq_foldl, foldl_parseSegStep_eq] at hkv
    rcases mem_foldl_mapInsert _ _ hkv with h0 | hmem
    · simp at h0
    · rcases List.mem_filterMap.1 hmem with ⟨seg, hseg, hps⟩
      exact ⟨seg, hseg, parseSegment_eq_some.1 hps⟩
  · intro m seg k v hsp
    unfold parseSegStep
    rw [hsp]
  · intro m seg hlen
    rw [parseSegStep_eq]
    cases hps : parseSegment seg with
    | none => rfl
    | some kv =>
      obtain ⟨k, v⟩ := kv
      have hsp := parseSegment_eq_some.1 hps
      exact absurd (by rw [hsp]; rfl) hlen

/-- Witness for the amended C1: in `"a:,b"`, the accepted entry `("a", "")`
comes from the two-part segment `"a:"`; a two-part split is inserted and the
one-part segment `"b"` contributes nothing. -/
theorem parse_segment_acceptance_w :
    (∃ seg ∈ splitStr ',' "a:,b", splitStr ':' seg = ["a", ""])
  ∧ parseSegStep [] "a:" = mapInsert [] "a" ""
  ∧ parseSegStep [] "b" = [] :=
  ⟨parse_segment_acceptance.1 "a:,b" "a" "" (by decide),
   parse_segment_acceptance.2.1 [] "a:" "a" "" (by decide),
   parse_segment_acceptance.2.2 [] "b" (by decide)⟩

/-- C8 counterexample: at `"a:"` the serialized parse result contains the
segment `"a:"` although the claim's well-formed set (two non-empty parts) is
empty, and at `"a:1,a:2"` the spec-well-formed segment `"a:1"` is missing from
the serialized parse result because the later duplicate key overwrote it. -/
theorem parse_serialize_roundtrip_cex :
    (serializedEntries (parseParams "a:") = ["a:"]
      ∧ specWellFormedSegments "a:" = [])
  ∧ serializedEntries (parseParams "a:1,a:2") = ["a:2"]
  ∧ specWellFormedSegments "a:1,a:2" = ["a:1", "a:2"] := by
  refine ⟨⟨?_, ?_⟩, ?_, ?_⟩ <;> decide

/-- C8 (amended): for every parameter string whose two-part segments carry
pairwise-distinct keys, parsing and re-serializing (the `key:value` strings of
the map's entries, to be joined by commas) yields exactly the segments of the
input that split on `:` into two — possibly empty — parts; segments with zero
colons or several colons never appear. -/
theorem parse_serialize_roundtrip (s : String)
    (hnd : ((wellFormedPairs s).map Prod.fst).Nodup) :
    ∀ t : String, t ∈ serializedEntries (parseParams s) ↔ t ∈ twoPartSegments s := by
  have he : serializedEntries (parseParams s) = twoPartSegments s := by
    rw [parseParams_eq_wellFormedPairs hnd]
    unfold serializedEntries twoPartSegments wellFormedPairs
    exact serialized_wellFormedPairs _
  intro t
  rw [he]

/-- Witness for the amended C8 at `"a:,x,b:c"` (distinct keys `a`, `b`): the
accepted two-part segment `"a:"` survives the round trip. -/
theorem parse_serialize_roundtrip_w :
    ("a:" ∈ serializedEntries (parseParams "a:,x,b:c")) ↔
      ("a:" ∈ twoPartSegments "a:,x,b:c") :=
  parse_serialize_roundtrip "a:,x,b:c" (by decide) "a:"

/-- C9: when two or more accepted segments of the parameter string share the
key `k`, the resulting map binds `k` to the value of the last such segment in
left-to-right order, and holds exactly one entry for `k`. -/
theorem duplicate_keys_last_wins (s k : String)
    (h2 : 2 ≤ (acceptedValuesFor s k).length) :
    mapLookup (parseParams s) k = (acceptedValuesFor s k).getLast?
  ∧ (parseParams s).countP (fun p => decide (p.1 = k)) = 1 := by
  have hlk : mapLookup (parseParams s) k = (acceptedValuesFor s k).getLast? := by
    rw [parseParams_eq_foldl, foldl_parseSegStep_eq, mapLookup_foldl_mapInsert,
      acceptedValuesFor_eq]
    unfold wellFormedPairs
    cases hg : (((splitStr ',' s).filterMap parseSegment).filterMap
        (fun kv => if kv.1 = k then some kv.2 else none)).getLast? with
    | none => simp [mapLookup]
    | some z => simp
  have hne : ¬acceptedValuesFor s k = [] := by
    intro h0
    rw [h0] at h2
    simp at h2
  have hex : ∃ v, mapLookup (parseParams s) k = some v := by
    cases hg : (acceptedValuesFor s k).getLast? with
    | none =>
      rw [List.getLast?_eq_none_iff] at hg
      exact absurd hg hne
    | some v => exact ⟨v, by rw [hlk, hg]⟩
  obtain ⟨v, hv⟩ := hex
  exact ⟨hlk, countP_key_eq_one (nodup_keys_parseParams s) hv⟩

/-- Witness for C9 at `"a:1,b:2,a:3"` and key `"a"`: two accepted segments
carry the key, the map binds it to `"3"` (the later one) and holds a single
entry for it. -/
theorem duplicate_keys_last_wins_w :
    mapLookup (parseParams "a:1,b:2,a:3") "a" =
      (acceptedValuesFor "a:1,b:2,a:3" "a").getLast?
  ∧ (parseParams "a:1,b:2,a:3").countP (fun p => decide (p.1 = "a")) = 1 :=
  duplicate_keys_last_wins "a:1,b:2,a:3" "a" (by decide)

end pulsar
